import Mathlib

/-!
Shallow embedding of the spoken-text alignment and scoring engine
(class `TextComparator` in the frontend sources of the reading-practice
application) together with proofs of its specified properties.

Modelling conventions:
* JavaScript numbers carrying similarity scores are modelled by `ℚ`
  (every score produced by the engine is a quotient of small integers).
* The JavaScript `Set` of consumed spoken indices is modelled by `Finset ℕ`.
* `String.prototype.toLowerCase` is modelled by `Char.toLower` (ASCII case
  folding); none of the verified properties depends on non-ASCII folding.
* `Math.round` on the non-negative accuracy value is `jsRound q = ⌊q + 1/2⌋`.
* Characters are written with `Char.ofNat` code points to keep the
  punctuation table readable as data.
-/

namespace TextComparator

/-- The fixed punctuation set that `normalize` strips, by code point:
period, comma, exclamation and question mark, semicolon, colon, the two
quote characters, parentheses, square brackets and curly brackets. -/
def punctuationChars : List Char :=
  [Char.ofNat 46, Char.ofNat 44, Char.ofNat 33, Char.ofNat 63, Char.ofNat 59,
   Char.ofNat 58, Char.ofNat 39, Char.ofNat 34, Char.ofNat 40, Char.ofNat 41,
   Char.ofNat 91, Char.ofNat 93, Char.ofNat 123, Char.ofNat 125]

/-- Characters matched by the JavaScript regex class `\s`
(the ASCII whitespace characters plus NBSP and the BOM). -/
def jsWhitespace (c : Char) : Bool :=
  c == Char.ofNat 9 || c == Char.ofNat 10 || c == Char.ofNat 11 ||
  c == Char.ofNat 12 || c == Char.ofNat 13 || c == Char.ofNat 32 ||
  c == Char.ofNat 160 || c == Char.ofNat 65279

/-- The punctuation-removing `replace` step of `normalize`. -/
def removePunct (cs : List Char) : List Char :=
  cs.filter (fun c => !(punctuationChars.contains c))

/-- The whitespace-collapsing `replace` step of `normalize`: every run of
whitespace characters becomes a single space. -/
def collapseWs : List Char → List Char
  | [] => []
  | [c] => if jsWhitespace c then [Char.ofNat 32] else [c]
  | c1 :: c2 :: cs =>
    if jsWhitespace c1 && jsWhitespace c2 then collapseWs (c2 :: cs)
    else (if jsWhitespace c1 then Char.ofNat 32 else c1) :: collapseWs (c2 :: cs)

/-- The `trim()` step of `normalize`.  After collapsing, the only whitespace
character that can remain at either end is a single space. -/
def trimSpaces (cs : List Char) : List Char :=
  (((cs.dropWhile (fun c => c == Char.ofNat 32)).reverse).dropWhile
    (fun c => c == Char.ofNat 32)).reverse

/-- Model of `TextComparator.normalize`: lowercase, strip punctuation, collapse
whitespace runs to single spaces, trim. -/
def normalize (text : String) : String :=
  String.mk (trimSpaces (collapseWs (removePunct (text.data.map Char.toLower))))

/-- Model of `split(' ')` on a list of characters (keeps empty chunks, as the
JavaScript `String.prototype.split` does). -/
def splitOnSpace : List Char → List (List Char)
  | [] => [[]]
  | c :: cs =>
    if c == Char.ofNat 32 then [] :: splitOnSpace cs
    else match splitOnSpace cs with
      | [] => [[c]]
      | w :: ws => (c :: w) :: ws

/-- Model of `TextComparator.tokenize`: normalize, split on spaces, drop empty words. -/
def tokenize (text : String) : List String :=
  ((splitOnSpace (normalize text).data).map (fun cs => String.mk cs)).filter
    (fun w => 0 < w.length)

/-- Inner recursion for `levChars`: given the first character `c1` of the
first string and the distance function `f` for its tail, compute the
distance of the whole first string to the second string. -/
def levAux (c1 : Char) (f : List Char → ℕ) : List Char → ℕ
  | [] => f [] + 1
  | c2 :: s2 =>
    if c1 = c2 then f s2
    else 1 + min (f (c2 :: s2)) (min (levAux c1 f s2) (f s2))

/-- Model of `TextComparator.levenshteinDistance` on character lists: the classic
unit-cost recurrence that the dynamic-programming table in the source
evaluates (`dp[i][j] = dp[i-1][j-1]` on equal characters and
`1 + min (dp[i-1][j]) (dp[i][j-1]) (dp[i-1][j-1])` otherwise), written as a
structural recursion; the recurrence equations are proved below
(`levChars_nil_left`, `levChars_nil_right`, `levChars_cons_cons`). -/
def levChars : List Char → List Char → ℕ
  | [], s2 => s2.length
  | c1 :: s1, s2 => levAux c1 (levChars s1) s2

/-- Model of `TextComparator.levenshteinDistance` on strings. -/
def levenshteinDistance (str1 str2 : String) : ℕ :=
  levChars str1.data str2.data

/-- Model of `TextComparator.similarity`: `1 - distance / maxLen`, and `1` when both
words are empty. -/
def similarity (word1 word2 : String) : ℚ :=
  let maxLen := max word1.length word2.length
  if maxLen = 0 then 1
  else 1 - (levenshteinDistance word1 word2 : ℚ) / (maxLen : ℚ)

/-- One entry of `results.wordResults`. -/
structure WordResult where
  original : String
  spoken : String
  status : String
  similarity : ℚ
deriving DecidableEq, Inhabited

/-- The mutable state of the matching loop in `compare`: the set of consumed
spoken indices, the word results so far and the three match counters. -/
structure CompareState where
  used : Finset ℕ
  wordResults : List WordResult
  correctCount : ℕ
  incorrectCount : ℕ
  missedCount : ℕ
deriving DecidableEq

/-- The result object built by `compare`. -/
structure ComparisonResult where
  originalWords : List String
  spokenWords : List String
  wordResults : List WordResult
  correctCount : ℕ
  incorrectCount : ℕ
  missedCount : ℕ
  extraCount : ℕ
  accuracy : ℤ
deriving DecidableEq

/-- The `bestMatch` / `bestSimilarity` / `bestIndex` triple tracked for a
reference word; `bestIndex` is an integer because the source initializes it
to `-1`. -/
structure BestCand where
  bestMatch : Option String
  bestSimilarity : ℚ
  bestIndex : ℤ
deriving DecidableEq

/-- Window start `Math.max(0, i - 5)`; truncated subtraction on `ℕ` is
exactly this clamped subtraction. -/
def searchStart (i : ℕ) : ℕ := i - 5

/-- Window end `Math.min(spokenWords.length, i + 10)`. -/
def searchEnd (spokenWords : List String) (i : ℕ) : ℕ :=
  min spokenWords.length (i + 10)

/-- Positional bonus `1 - Math.abs(i - j) * 0.02`. -/
def positionBonus (i j : ℕ) : ℚ :=
  1 - (((i : ℤ) - (j : ℤ)).natAbs : ℚ) * (2 / 100)

/-- The adjusted score of candidate `j` for reference position `i`:
`similarity * positionBonus`. -/
def adjustedSim (w : String) (spokenWords : List String) (i j : ℕ) : ℚ :=
  similarity w (spokenWords.getD j "") * positionBonus i j

/-- The body of the windowed search loop: skip consumed indices, keep the
candidate whenever its adjusted score strictly beats the best one so far. -/
def scanBody (w : String) (spokenWords : List String) (i : ℕ) (used : Finset ℕ)
    (best : BestCand) (j : ℕ) : BestCand :=
  if j ∈ used then best
  else if adjustedSim w spokenWords i j > best.bestSimilarity then
    ⟨some (spokenWords.getD j ""), adjustedSim w spokenWords i j, (j : ℤ)⟩
  else best

/-- The windowed search over `j ∈ [searchStart, searchEnd)`. -/
def windowScan (w : String) (spokenWords : List String) (i : ℕ) (used : Finset ℕ) :
    BestCand :=
  (List.range' (searchStart i) (searchEnd spokenWords i - searchStart i)).foldl
    (scanBody w spokenWords i used) ⟨none, 0, -1⟩

/-- The fallback scan: the first unconsumed index outside the window whose
token is exactly the reference word (the source breaks at the first hit). -/
def fallbackScan (w : String) (spokenWords : List String) (i : ℕ) (used : Finset ℕ) :
    Option ℕ :=
  (List.range spokenWords.length).find? (fun j =>
    decide (j ∉ used) &&
    decide (¬ (searchStart i ≤ j ∧ j < searchEnd spokenWords i)) &&
    (spokenWords.getD j "" == w))

/-- The combined candidate for a reference position: the windowed best,
overridden with a perfect score by an exact match found anywhere else when
the windowed best scores below `0.9`. -/
def bestCandidate (w : String) (spokenWords : List String) (i : ℕ) (used : Finset ℕ) :
    BestCand :=
  let b := windowScan w spokenWords i used
  if b.bestSimilarity < 9 / 10 then
    match fallbackScan w spokenWords i used with
    | some j => ⟨some (spokenWords.getD j ""), 1, (j : ℤ)⟩
    | none => b
  else b

/-- JavaScript truthiness of the `bestMatch` value: `null` and the empty
string are falsy. -/
def jsTruthy : Option String → Bool
  | none => false
  | some s => !(s == "")

/-- One iteration of the matching loop of `compare`: classify the winning
candidate for reference word `w` at position `i` and update the state. -/
def compareStep (thr : ℚ) (spokenWords : List String) (i : ℕ) (w : String)
    (st : CompareState) : CompareState :=
  let b := bestCandidate w spokenWords i st.used
  if jsTruthy b.bestMatch ∧ thr ≤ b.bestSimilarity then
    { st with
      used := insert b.bestIndex.toNat st.used,
      wordResults := st.wordResults ++
        [⟨w, b.bestMatch.getD "", "correct", b.bestSimilarity⟩],
      correctCount := st.correctCount + 1 }
  else if jsTruthy b.bestMatch ∧ 1 / 2 ≤ b.bestSimilarity then
    { st with
      used := insert b.bestIndex.toNat st.used,
      wordResults := st.wordResults ++
        [⟨w, b.bestMatch.getD "", "incorrect", b.bestSimilarity⟩],
      incorrectCount := st.incorrectCount + 1 }
  else
    { st with
      wordResults := st.wordResults ++ [⟨w, "", "missed", 0⟩],
      missedCount := st.missedCount + 1 }

/-- The matching loop of `compare` over the reference words, with `i` the
position of the first word of the remaining list. -/
def compareLoop (thr : ℚ) (spokenWords : List String) :
    ℕ → List String → CompareState → CompareState
  | _, [], st => st
  | i, w :: ws, st =>
    compareLoop thr spokenWords (i + 1) ws (compareStep thr spokenWords i w st)

/-- The freshly initialized `results` accumulator. -/
def initState : CompareState := ⟨∅, [], 0, 0, 0⟩

/-- Model of `Math.round` for the non-negative values produced by the engine. -/
def jsRound (q : ℚ) : ℤ := ⌊q + 1 / 2⌋

/-- The default value of the `similarityThreshold` parameter of `compare`. -/
def defaultSimilarityThreshold : ℚ := 7 / 10

/-- Model of `TextComparator.compare`: tokenize both texts, run the matching loop,
then derive `extraCount` and `accuracy`. -/
def compare (originalText spokenText : String) (similarityThreshold : ℚ) :
    ComparisonResult :=
  let originalWords := tokenize originalText
  let spokenWords := tokenize spokenText
  let st := compareLoop similarityThreshold spokenWords 0 originalWords initState
  { originalWords := originalWords
    spokenWords := spokenWords
    wordResults := st.wordResults
    correctCount := st.correctCount
    incorrectCount := st.incorrectCount
    missedCount := st.missedCount
    extraCount := (max 0 ((spokenWords.length : ℤ) - (st.used.card : ℤ))).toNat
    accuracy :=
      if 0 < originalWords.length then
        jsRound ((st.correctCount : ℚ) / (originalWords.length : ℚ) * 100)
      else 0 }

/-- The per-record invariant of `wordResults` entries produced for reference
position `i`: the three statuses are characterized by the stored spoken word
and similarity, and the stored similarity is the adjusted windowed score or
the perfect fallback score. -/
def recProp (spokenWords : List String) (thr : ℚ) (i : ℕ) (r : WordResult) : Prop :=
  (r.status = "missed" ↔ (r.spoken = "" ∧ r.similarity = 0)) ∧
  (r.status = "correct" → thr ≤ r.similarity) ∧
  (r.status = "incorrect" → 1 / 2 ≤ r.similarity ∧ r.similarity < thr) ∧
  0 ≤ r.similarity ∧ r.similarity ≤ 1 ∧
  (r.status ≠ "missed" →
    r.similarity = 1 ∨ ∃ j, j < spokenWords.length ∧ r.spoken = spokenWords.getD j "" ∧
      r.similarity = adjustedSim r.original spokenWords i j)

/-! ### Properties of the Levenshtein distance and of `similarity` -/

theorem levChars_nil_left (s2 : List Char) : levChars [] s2 = s2.length := rfl

theorem levChars_nil_right (s1 : List Char) : levChars s1 [] = s1.length := by
  induction s1 with
  | nil => rfl
  | cons c1 s1 ih => simp [levChars, levAux, ih]

theorem levChars_cons_cons (c1 c2 : Char) (s1 s2 : List Char) :
    levChars (c1 :: s1) (c2 :: s2) =
      if c1 = c2 then levChars s1 s2
      else 1 + min (levChars s1 (c2 :: s2))
        (min (levChars (c1 :: s1) s2) (levChars s1 s2)) := rfl

theorem levChars_self (cs : List Char) : levChars cs cs = 0 := by
  induction cs with
  | nil => rfl
  | cons c cs ih => rw [levChars_cons_cons, if_pos rfl, ih]

theorem levChars_le_max (s1 s2 : List Char) :
    levChars s1 s2 ≤ max s1.length s2.length := by
  induction s1 generalizing s2 with
  | nil => simp [levChars_nil_left]
  | cons c1 s1 ih =>
    induction s2 with
    | nil => simp [levChars_nil_right]
    | cons c2 s2 ih2 =>
      rw [levChars_cons_cons]
      by_cases h : c1 = c2
      · have := ih s2
        simp only [if_pos h, List.length_cons]
        omega
      · have h1 := ih (c2 :: s2)
        have h3 := ih s2
        simp only [if_neg h, List.length_cons] at *
        omega

theorem levenshteinDistance_le_max (str1 str2 : String) :
    levenshteinDistance str1 str2 ≤ max str1.length str2.length :=
  levChars_le_max str1.data str2.data

theorem levenshteinDistance_self (s : String) : levenshteinDistance s s = 0 :=
  levChars_self s.data

theorem similarity_nonneg (w1 w2 : String) : 0 ≤ similarity w1 w2 := by
  unfold similarity
  by_cases h : max w1.length w2.length = 0
  · simp [h]
  · simp only [h, if_false]
    have hpos : (0 : ℚ) < (max w1.length w2.length : ℕ) := by
      exact_mod_cast Nat.pos_of_ne_zero h
    have hle : ((levenshteinDistance w1 w2 : ℕ) : ℚ) ≤ ((max w1.length w2.length : ℕ) : ℚ) := by
      exact_mod_cast levenshteinDistance_le_max w1 w2
    have := (div_le_one hpos).mpr hle
    linarith

theorem similarity_le_one (w1 w2 : String) : similarity w1 w2 ≤ 1 := by
  unfold similarity
  by_cases h : max w1.length w2.length = 0
  · simp [h]
  · simp only [h, if_false]
    have hpos : (0 : ℚ) < (max w1.length w2.length : ℕ) := by
      exact_mod_cast Nat.pos_of_ne_zero h
    have hd : (0 : ℚ) ≤ (levenshteinDistance w1 w2 : ℕ) := by positivity
    have := div_nonneg hd (le_of_lt hpos)
    linarith

theorem similarity_self (w : String) : similarity w w = 1 := by
  by_cases h : max w.length w.length = 0
  · have h0 : w.length = 0 := by simpa using h
    simp [similarity, h0]
  · simp [similarity, h, levenshteinDistance_self]

/-! ### Properties of the adjusted score -/

theorem positionBonus_le_one (i j : ℕ) : positionBonus i j ≤ 1 := by
  unfold positionBonus
  have : (0 : ℚ) ≤ ((((i : ℤ) - (j : ℤ)).natAbs : ℕ) : ℚ) * (2 / 100) := by positivity
  linarith

theorem positionBonus_self (i : ℕ) : positionBonus i i = 1 := by
  simp [positionBonus]

theorem adjustedSim_le_one (w : String) (spokenWords : List String) (i j : ℕ) :
    adjustedSim w spokenWords i j ≤ 1 := by
  unfold adjustedSim
  calc similarity w (spokenWords.getD j "") * positionBonus i j
      ≤ similarity w (spokenWords.getD j "") * 1 := by
        have := similarity_nonneg w (spokenWords.getD j "")
        have := positionBonus_le_one i j
        nlinarith
    _ ≤ 1 := by simpa using similarity_le_one w (spokenWords.getD j "")

theorem adjustedSim_self (w : String) (spokenWords : List String) (i : ℕ)
    (h : spokenWords.getD i "" = w) : adjustedSim w spokenWords i i = 1 := by
  unfold adjustedSim
  rw [h, similarity_self, positionBonus_self, one_mul]

/-! ### The windowed scan -/

theorem foldl_scan_id (w : String) (spokenWords : List String) (i : ℕ)
    (used : Finset ℕ) (l : List ℕ) (b : BestCand)
    (h : ∀ j ∈ l, j ∈ used ∨ adjustedSim w spokenWords i j ≤ b.bestSimilarity) :
    l.foldl (scanBody w spokenWords i used) b = b := by
  induction l with
  | nil => rfl
  | cons j l ih =>
    have hbody : scanBody w spokenWords i used b j = b := by
      rcases h j (List.mem_cons_self j l) with hj | hj
      · simp [scanBody, hj]
      · by_cases hu : j ∈ used
        · simp [scanBody, hu]
        · simp [scanBody, hu, not_lt.mpr hj]
    rw [List.foldl_cons, hbody]
    exact ih (fun j' hj' => h j' (List.mem_cons_of_mem _ hj'))

theorem foldl_scan_spec (w : String) (spokenWords : List String) (i : ℕ)
    (used : Finset ℕ) (l : List ℕ) :
    ∀ b : BestCand, 0 ≤ b.bestSimilarity →
      b.bestSimilarity ≤ (l.foldl (scanBody w spokenWords i used) b).bestSimilarity ∧
      (∀ j ∈ l, j ∉ used →
        adjustedSim w spokenWords i j ≤
          (l.foldl (scanBody w spokenWords i used) b).bestSimilarity) ∧
      (l.foldl (scanBody w spokenWords i used) b = b ∨
        ∃ j ∈ l, j ∉ used ∧
          l.foldl (scanBody w spokenWords i used) b =
            ⟨some (spokenWords.getD j ""), adjustedSim w spokenWords i j, (j : ℤ)⟩ ∧
          0 < adjustedSim w spokenWords i j) := by
  induction l with
  | nil => exact fun b _ => ⟨le_refl _, by simp, Or.inl rfl⟩
  | cons j l ih =>
    intro b hb
    by_cases hu : j ∈ used
    · have hbody : scanBody w spokenWords i used b j = b := by simp [scanBody, hu]
      rw [List.foldl_cons, hbody]
      obtain ⟨h1, h2, h3⟩ := ih b hb
      refine ⟨h1, ?_, ?_⟩
      · intro j' hj' hju
        rcases List.mem_cons.mp hj' with rfl | hj'
        · exact absurd hu hju
        · exact h2 j' hj' hju
      · rcases h3 with h3 | ⟨j', hj', hju', hfold, hpos⟩
        · exact Or.inl h3
        · exact Or.inr ⟨j', List.mem_cons_of_mem _ hj', hju', hfold, hpos⟩
    · by_cases hlt : adjustedSim w spokenWords i j > b.bestSimilarity
      · have hbody : scanBody w spokenWords i used b j =
            ⟨some (spokenWords.getD j ""), adjustedSim w spokenWords i j, (j : ℤ)⟩ := by
          simp [scanBody, hu, hlt]
        rw [List.foldl_cons, hbody]
        have hb' : (0 : ℚ) ≤
            (⟨some (spokenWords.getD j ""), adjustedSim w spokenWords i j,
              (j : ℤ)⟩ : BestCand).bestSimilarity :=
          le_of_lt (lt_of_le_of_lt hb hlt)
        obtain ⟨h1, h2, h3⟩ := ih _ hb'
        refine ⟨le_trans (le_of_lt hlt) h1, ?_, ?_⟩
        · intro j' hj' hju
          rcases List.mem_cons.mp hj' with rfl | hj'
          · exact h1
          · exact h2 j' hj' hju
        · rcases h3 with h3 | ⟨j', hj', hju', hfold, hpos⟩
          · exact Or.inr ⟨j, List.mem_cons_self j l, hu, h3, lt_of_le_of_lt hb hlt⟩
          · exact Or.inr ⟨j', List.mem_cons_of_mem _ hj', hju', hfold, hpos⟩
      · have hbody : scanBody w spokenWords i used b j = b := by
          simp [scanBody, hu, hlt]
        rw [List.foldl_cons, hbody]
        obtain ⟨h1, h2, h3⟩ := ih b hb
        refine ⟨h1, ?_, ?_⟩
        · intro j' hj' hju
          rcases List.mem_cons.mp hj' with rfl | hj'
          · exact le_trans (not_lt.mp hlt) h1
          · exact h2 j' hj' hju
        · rcases h3 with h3 | ⟨j', hj', hju', hfold, hpos⟩
          · exact Or.inl h3
          · exact Or.inr ⟨j', List.mem_cons_of_mem _ hj', hju', hfold, hpos⟩

theorem windowScan_upper (w : String) (spokenWords : List String) (i : ℕ)
    (used : Finset ℕ) (j : ℕ) (hjs : searchStart i ≤ j)
    (hje : j < searchEnd spokenWords i) (hju : j ∉ used) :
    adjustedSim w spokenWords i j ≤ (windowScan w spokenWords i used).bestSimilarity := by
  obtain ⟨_, h2, _⟩ := foldl_scan_spec w spokenWords i used
    (List.range' (searchStart i) (searchEnd spokenWords i - searchStart i))
    ⟨none, 0, -1⟩ (le_refl 0)
  exact h2 j (by rw [List.mem_range'_1]; omega) hju

theorem windowScan_nonneg (w : String) (spokenWords : List String) (i : ℕ)
    (used : Finset ℕ) : 0 ≤ (windowScan w spokenWords i used).bestSimilarity := by
  obtain ⟨h1, _, _⟩ := foldl_scan_spec w spokenWords i used
    (List.range' (searchStart i) (searchEnd spokenWords i - searchStart i))
    ⟨none, 0, -1⟩ (le_refl 0)
  exact h1

theorem windowScan_some (w : String) (spokenWords : List String) (i : ℕ)
    (used : Finset ℕ) (m : String)
    (hm : (windowScan w spokenWords i used).bestMatch = some m) :
    ∃ j, searchStart i ≤ j ∧ j < searchEnd spokenWords i ∧ j ∉ used ∧
      (windowScan w spokenWords i used).bestIndex = (j : ℤ) ∧
      m = spokenWords.getD j "" ∧
      (windowScan w spokenWords i used).bestSimilarity = adjustedSim w spokenWords i j ∧
      0 < adjustedSim w spokenWords i j := by
  obtain ⟨_, _, h3⟩ := foldl_scan_spec w spokenWords i used
    (List.range' (searchStart i) (searchEnd spokenWords i - searchStart i))
    ⟨none, 0, -1⟩ (le_refl 0)
  rcases h3 with h3 | ⟨j, hj, hju, hfold, hpos⟩
  · have hws : windowScan w spokenWords i used = ⟨none, 0, -1⟩ := h3
    rw [hws] at hm
    exact absurd hm (by simp)
  · rw [List.mem_range'_1] at hj
    have hfold' : windowScan w spokenWords i used =
        ⟨some (spokenWords.getD j ""), adjustedSim w spokenWords i j, (j : ℤ)⟩ := hfold
    refine ⟨j, hj.1, by omega, hju, ?_, ?_, ?_, hpos⟩
    · rw [hfold']
    · rw [hfold'] at hm
      exact (Option.some.inj hm).symm
    · rw [hfold']

theorem windowScan_none (w : String) (spokenWords : List String) (i : ℕ)
    (used : Finset ℕ) (hm : (windowScan w spokenWords i used).bestMatch = none) :
    windowScan w spokenWords i used = ⟨none, 0, -1⟩ := by
  obtain ⟨_, _, h3⟩ := foldl_scan_spec w spokenWords i used
    (List.range' (searchStart i) (searchEnd spokenWords i - searchStart i))
    ⟨none, 0, -1⟩ (le_refl 0)
  rcases h3 with h3 | ⟨j, _, _, hfold, _⟩
  · exact h3
  · have hfold' : windowScan w spokenWords i used =
        ⟨some (spokenWords.getD j ""), adjustedSim w spokenWords i j, (j : ℤ)⟩ := hfold
    rw [hfold'] at hm
    exact absurd hm (by simp)

/-! ### The fallback scan and the combined candidate -/

theorem fallbackScan_some (w : String) (spokenWords : List String) (i : ℕ)
    (used : Finset ℕ) (j : ℕ) (h : fallbackScan w spokenWords i used = some j) :
    j ∉ used ∧ ¬(searchStart i ≤ j ∧ j < searchEnd spokenWords i) ∧
      j < spokenWords.length ∧ spokenWords.getD j "" = w := by
  have hmem := List.mem_of_find?_eq_some h
  have hp := List.find?_some h
  simp only [List.mem_range] at hmem
  simp only [Bool.and_eq_true, decide_eq_true_eq, beq_iff_eq] at hp
  exact ⟨hp.1.1, hp.1.2, hmem, hp.2⟩

theorem fallbackScan_isSome (w : String) (spokenWords : List String) (i : ℕ)
    (used : Finset ℕ) (j : ℕ) (h1 : j ∉ used)
    (h2 : ¬(searchStart i ≤ j ∧ j < searchEnd spokenWords i))
    (h3 : j < spokenWords.length) (h4 : spokenWords.getD j "" = w) :
    ∃ j0, fallbackScan w spokenWords i used = some j0 := by
  rw [← Option.isSome_iff_exists]
  apply List.find?_isSome.mpr
  refine ⟨j, by simpa using h3, ?_⟩
  simp only [Bool.and_eq_true, decide_eq_true_eq, beq_iff_eq]
  exact ⟨⟨h1, h2⟩, h4⟩

theorem bestCandidate_some (w : String) (spokenWords : List String) (i : ℕ)
    (used : Finset ℕ) (m : String)
    (hm : (bestCandidate w spokenWords i used).bestMatch = some m) :
    ∃ j : ℕ, (bestCandidate w spokenWords i used).bestIndex = (j : ℤ) ∧ j ∉ used ∧
      j < spokenWords.length ∧ m = spokenWords.getD j "" ∧
      0 < (bestCandidate w spokenWords i used).bestSimilarity ∧
      (bestCandidate w spokenWords i used).bestSimilarity ≤ 1 ∧
      ((bestCandidate w spokenWords i used).bestSimilarity = adjustedSim w spokenWords i j ∨
        ((bestCandidate w spokenWords i used).bestSimilarity = 1 ∧ m = w)) := by
  by_cases hb : (windowScan w spokenWords i used).bestSimilarity < 9 / 10
  · cases hfs : fallbackScan w spokenWords i used with
    | some j =>
      have hbc : bestCandidate w spokenWords i used =
          ⟨some (spokenWords.getD j ""), 1, (j : ℤ)⟩ := by
        simp only [bestCandidate]
        rw [if_pos hb, hfs]
      obtain ⟨hju, _, hjlen, hjw⟩ := fallbackScan_some w spokenWords i used j hfs
      rw [hbc] at hm ⊢
      have hmw : m = spokenWords.getD j "" := (Option.some.inj hm).symm
      exact ⟨j, rfl, hju, hjlen, hmw, one_pos, le_refl 1, Or.inr ⟨rfl, hmw.trans hjw⟩⟩
    | none =>
      have hbc : bestCandidate w spokenWords i used = windowScan w spokenWords i used := by
        simp only [bestCandidate]
        rw [if_pos hb, hfs]
      rw [hbc] at hm ⊢
      obtain ⟨j, _, hje, hju, hidx, hmw, hsim, hpos⟩ :=
        windowScan_some w spokenWords i used m hm
      have hjlen : j < spokenWords.length :=
        lt_of_lt_of_le hje (min_le_left _ _)
      exact ⟨j, hidx, hju, hjlen, hmw, by rw [hsim]; exact hpos,
        by rw [hsim]; exact adjustedSim_le_one w spokenWords i j, Or.inl hsim⟩
  · have hbc : bestCandidate w spokenWords i used = windowScan w spokenWords i used := by
      simp only [bestCandidate]
      rw [if_neg hb]
    rw [hbc] at hm ⊢
    obtain ⟨j, _, hje, hju, hidx, hmw, hsim, hpos⟩ :=
      windowScan_some w spokenWords i used m hm
    have hjlen : j < spokenWords.length :=
      lt_of_lt_of_le hje (min_le_left _ _)
    exact ⟨j, hidx, hju, hjlen, hmw, by rw [hsim]; exact hpos,
      by rw [hsim]; exact adjustedSim_le_one w spokenWords i j, Or.inl hsim⟩

/-! ### The tokenizer produces non-empty tokens -/

theorem tokenize_mem_ne_empty (text : String) : ∀ w ∈ tokenize text, w ≠ "" := by
  intro w hw hempty
  have hp := (List.mem_filter.mp hw).2
  subst hempty
  simp at hp

/-! ### Case analysis of one classification step -/

theorem compareStep_trichotomy (thr : ℚ) (spokenWords : List String) (i : ℕ)
    (w : String) (st : CompareState) :
    (jsTruthy (bestCandidate w spokenWords i st.used).bestMatch = true ∧
      thr ≤ (bestCandidate w spokenWords i st.used).bestSimilarity ∧
      compareStep thr spokenWords i w st = { st with
        used := insert (bestCandidate w spokenWords i st.used).bestIndex.toNat st.used,
        wordResults := st.wordResults ++
          [⟨w, (bestCandidate w spokenWords i st.used).bestMatch.getD "", "correct",
            (bestCandidate w spokenWords i st.used).bestSimilarity⟩],
        correctCount := st.correctCount + 1 }) ∨
    (jsTruthy (bestCandidate w spokenWords i st.used).bestMatch = true ∧
      ¬ thr ≤ (bestCandidate w spokenWords i st.used).bestSimilarity ∧
      1 / 2 ≤ (bestCandidate w spokenWords i st.used).bestSimilarity ∧
      compareStep thr spokenWords i w st = { st with
        used := insert (bestCandidate w spokenWords i st.used).bestIndex.toNat st.used,
        wordResults := st.wordResults ++
          [⟨w, (bestCandidate w spokenWords i st.used).bestMatch.getD "", "incorrect",
            (bestCandidate w spokenWords i st.used).bestSimilarity⟩],
        incorrectCount := st.incorrectCount + 1 }) ∨
    (¬ (jsTruthy (bestCandidate w spokenWords i st.used).bestMatch = true ∧
        thr ≤ (bestCandidate w spokenWords i st.used).bestSimilarity) ∧
      ¬ (jsTruthy (bestCandidate w spokenWords i st.used).bestMatch = true ∧
        1 / 2 ≤ (bestCandidate w spokenWords i st.used).bestSimilarity) ∧
      compareStep thr spokenWords i w st = { st with
        wordResults := st.wordResults ++ [⟨w, "", "missed", 0⟩],
        missedCount := st.missedCount + 1 }) := by
  by_cases h1 : jsTruthy (bestCandidate w spokenWords i st.used).bestMatch = true ∧
      thr ≤ (bestCandidate w spokenWords i st.used).bestSimilarity
  · left
    refine ⟨h1.1, h1.2, ?_⟩
    simp only [compareStep]
    rw [if_pos h1]
  · by_cases h2 : jsTruthy (bestCandidate w spokenWords i st.used).bestMatch = true ∧
        1 / 2 ≤ (bestCandidate w spokenWords i st.used).bestSimilarity
    · right; left
      refine ⟨h2.1, fun hc => h1 ⟨h2.1, hc⟩, h2.2, ?_⟩
      simp only [compareStep]
      rw [if_neg h1, if_pos h2]
    · right; right
      refine ⟨h1, h2, ?_⟩
      simp only [compareStep]
      rw [if_neg h1, if_neg h2]

theorem compareStep_exists_rec (thr : ℚ) (spokenWords : List String) (i : ℕ)
    (w : String) (st : CompareState) :
    ∃ r : WordResult, r.original = w ∧
      (compareStep thr spokenWords i w st).wordResults = st.wordResults ++ [r] ∧
      (compareStep thr spokenWords i w st).correctCount +
        (compareStep thr spokenWords i w st).incorrectCount +
        (compareStep thr spokenWords i w st).missedCount =
        st.correctCount + st.incorrectCount + st.missedCount + 1 := by
  rcases compareStep_trichotomy thr spokenWords i w st with
    ⟨_, _, heq⟩ | ⟨_, _, _, heq⟩ | ⟨_, _, heq⟩ <;>
    rw [heq] <;> exact ⟨_, rfl, rfl, by simp only []; omega⟩

/-! ### One step of `compare` on identical token sequences -/

theorem windowScan_self (U : List String) (i : ℕ) (hi : i < U.length) (w : String)
    (hw : U.getD i "" = w) :
    windowScan w U i (Finset.range i) = ⟨some w, 1, (i : ℤ)⟩ := by
  have hs : searchStart i ≤ i := Nat.sub_le i 5
  have he : i < searchEnd U i := lt_min hi (by omega)
  have h2 : (searchEnd U i - i) + (i - searchStart i) = searchEnd U i - searchStart i := by
    omega
  have h1 : searchStart i + (i - searchStart i) = i := by omega
  have hsplit : List.range' (searchStart i) (searchEnd U i - searchStart i) =
      List.range' (searchStart i) (i - searchStart i) ++
        List.range' i (searchEnd U i - i) := by
    have happ := List.range'_append_1 (searchStart i) (i - searchStart i)
      (searchEnd U i - i)
    rw [h1, h2] at happ
    exact happ.symm
  have hwdef : windowScan w U i (Finset.range i) =
      (List.range' (searchStart i) (searchEnd U i - searchStart i)).foldl
        (scanBody w U i (Finset.range i)) ⟨none, 0, -1⟩ := rfl
  rw [hwdef, hsplit, List.foldl_append]
  have hpre : (List.range' (searchStart i) (i - searchStart i)).foldl
      (scanBody w U i (Finset.range i)) ⟨none, 0, -1⟩ = ⟨none, 0, -1⟩ := by
    apply foldl_scan_id
    intro j hj
    left
    rw [List.mem_range'_1] at hj
    simp only [Finset.mem_range]
    omega
  rw [hpre]
  have he1 : searchEnd U i - i = (searchEnd U i - i - 1) + 1 := by omega
  rw [he1, List.range'_succ, List.foldl_cons]
  have hadj : adjustedSim w U i i = 1 := adjustedSim_self w U i hw
  have hstep : scanBody w U i (Finset.range i) ⟨none, 0, -1⟩ i = ⟨some w, 1, (i : ℤ)⟩ := by
    unfold scanBody
    rw [if_neg (by simp : ¬ (i ∈ Finset.range i))]
    rw [hadj]
    rw [if_pos (by norm_num : (1 : ℚ) > (⟨none, 0, -1⟩ : BestCand).bestSimilarity)]
    rw [hw]
  rw [hstep]
  apply foldl_scan_id
  intro j hj
  right
  simpa using adjustedSim_le_one w U i j

theorem bestCandidate_self (U : List String) (i : ℕ) (hi : i < U.length) (w : String)
    (hw : U.getD i "" = w) :
    bestCandidate w U i (Finset.range i) = ⟨some w, 1, (i : ℤ)⟩ := by
  simp only [bestCandidate]
  rw [windowScan_self U i hi w hw]
  norm_num

theorem compareStep_self (thr : ℚ) (hthr : thr ≤ 1) (U : List String) (i : ℕ)
    (hi : i < U.length) (w : String) (hw : U.getD i "" = w) (hw' : w ≠ "")
    (st : CompareState) (hu : st.used = Finset.range i) :
    compareStep thr U i w st = { st with
      used := insert i st.used,
      wordResults := st.wordResults ++ [⟨w, w, "correct", 1⟩],
      correctCount := st.correctCount + 1 } := by
  have hbc : bestCandidate w U i st.used = ⟨some w, 1, (i : ℤ)⟩ := by
    rw [hu]; exact bestCandidate_self U i hi w hw
  have hc : jsTruthy (⟨some w, 1, (i : ℤ)⟩ : BestCand).bestMatch = true ∧
      thr ≤ (⟨some w, 1, (i : ℤ)⟩ : BestCand).bestSimilarity := by
    constructor
    · simp [jsTruthy, hw']
    · simpa using hthr
  simp only [compareStep, hbc]
  rw [if_pos hc]
  simp only [Option.getD_some, Int.toNat_natCast]

/-! ### The matching loop -/

theorem compareLoop_shape (thr : ℚ) (spokenWords : List String) :
    ∀ (ws : List String) (k : ℕ) (st : CompareState),
      (compareLoop thr spokenWords k ws st).wordResults.map WordResult.original =
        st.wordResults.map WordResult.original ++ ws ∧
      (compareLoop thr spokenWords k ws st).correctCount +
        (compareLoop thr spokenWords k ws st).incorrectCount +
        (compareLoop thr spokenWords k ws st).missedCount =
        st.correctCount + st.incorrectCount + st.missedCount + ws.length := by
  intro ws
  induction ws with
  | nil => intro k st; simp [compareLoop]
  | cons w ws ih =>
    intro k st
    simp only [compareLoop]
    obtain ⟨r, hro, hwr, hcnt⟩ := compareStep_exists_rec thr spokenWords k w st
    obtain ⟨ih1, ih2⟩ := ih (k + 1) (compareStep thr spokenWords k w st)
    constructor
    · rw [ih1, hwr]
      simp [hro]
    · rw [ih2, hcnt]
      simp only [List.length_cons]
      omega

theorem compareLoop_self (U : List String) (hU : ∀ w ∈ U, w ≠ "") (thr : ℚ)
    (hthr : thr ≤ 1) :
    ∀ (ws : List String) (k : ℕ), U.drop k = ws → k ≤ U.length →
      ∀ st : CompareState, st.used = Finset.range k →
      compareLoop thr U k ws st =
        ⟨Finset.range U.length,
         st.wordResults ++ ws.map (fun w => ⟨w, w, "correct", 1⟩),
         st.correctCount + ws.length, st.incorrectCount, st.missedCount⟩ := by
  intro ws
  induction ws with
  | nil =>
    intro k hdrop hk st hu
    have hlen : U.length ≤ k := by
      have := congrArg List.length hdrop
      simp [List.length_drop] at this
      omega
    have hk' : k = U.length := le_antisymm hk hlen
    subst hk'
    simp only [compareLoop, List.map_nil, List.append_nil, List.length_nil,
      Nat.add_zero]
    cases st with
    | mk used wr c ic mc => simp_all
  | cons w ws ih =>
    intro k hdrop hk st hu
    have hklen : k < U.length := by
      by_contra h
      push_neg at h
      rw [List.drop_eq_nil_of_le h] at hdrop
      exact absurd hdrop (by simp)
    have hdrop' := hdrop
    rw [List.drop_eq_getElem_cons hklen] at hdrop'
    injection hdrop' with hget hdrop2
    have hgetD : U.getD k "" = w := by
      rw [List.getD_eq_getElem?_getD, List.getElem?_eq_getElem hklen]
      simpa using hget
    have hw' : w ≠ "" := by
      apply hU
      rw [← hget]
      exact List.getElem_mem hklen
    simp only [compareLoop]
    rw [compareStep_self thr hthr U k hklen w hgetD hw' st hu]
    have hst1 : ({ st with
        used := insert k st.used,
        wordResults := st.wordResults ++ [⟨w, w, "correct", 1⟩],
        correctCount := st.correctCount + 1 } : CompareState).used =
        Finset.range (k + 1) := by
      simp only [hu]
      rw [Finset.range_succ]
    rw [ih (k + 1) hdrop2 (by omega) _ hst1]
    simp only [CompareState.mk.injEq, List.map_cons, List.append_assoc,
      List.singleton_append, List.length_cons, true_and, and_true]
    omega

theorem compareStep_inv (thr : ℚ) (spokenWords : List String) (i : ℕ) (w : String)
    (st : CompareState) (h1 : st.used.card = st.correctCount + st.incorrectCount)
    (h2 : st.used ⊆ Finset.range spokenWords.length) :
    (compareStep thr spokenWords i w st).used.card =
      (compareStep thr spokenWords i w st).correctCount +
        (compareStep thr spokenWords i w st).incorrectCount ∧
    (compareStep thr spokenWords i w st).used ⊆ Finset.range spokenWords.length := by
  have hsome : jsTruthy (bestCandidate w spokenWords i st.used).bestMatch = true →
      ∃ j : ℕ, (bestCandidate w spokenWords i st.used).bestIndex = (j : ℤ) ∧
        j ∉ st.used ∧ j < spokenWords.length := by
    intro ht
    cases hbm : (bestCandidate w spokenWords i st.used).bestMatch with
    | none => rw [hbm] at ht; simp [jsTruthy] at ht
    | some m =>
      obtain ⟨j, hidx, hju, hjlen, _⟩ := bestCandidate_some w spokenWords i st.used m hbm
      exact ⟨j, hidx, hju, hjlen⟩
  rcases compareStep_trichotomy thr spokenWords i w st with
    ⟨ht, _, heq⟩ | ⟨ht, _, _, heq⟩ | ⟨_, _, heq⟩
  · obtain ⟨j, hidx, hju, hjlen⟩ := hsome ht
    rw [heq]
    simp only [hidx, Int.toNat_natCast]
    constructor
    · rw [Finset.card_insert_of_not_mem hju, h1]
      omega
    · intro x hx
      rcases Finset.mem_insert.mp hx with rfl | hx
      · exact Finset.mem_range.mpr hjlen
      · exact h2 hx
  · obtain ⟨j, hidx, hju, hjlen⟩ := hsome ht
    rw [heq]
    simp only [hidx, Int.toNat_natCast]
    constructor
    · rw [Finset.card_insert_of_not_mem hju, h1]
      omega
    · intro x hx
      rcases Finset.mem_insert.mp hx with rfl | hx
      · exact Finset.mem_range.mpr hjlen
      · exact h2 hx
  · rw [heq]
    exact ⟨h1, h2⟩

theorem compareLoop_inv (thr : ℚ) (spokenWords : List String) :
    ∀ (ws : List String) (k : ℕ) (st : CompareState),
      st.used.card = st.correctCount + st.incorrectCount →
      st.used ⊆ Finset.range spokenWords.length →
      (compareLoop thr spokenWords k ws st).used.card =
        (compareLoop thr spokenWords k ws st).correctCount +
          (compareLoop thr spokenWords k ws st).incorrectCount ∧
      (compareLoop thr spokenWords k ws st).used ⊆ Finset.range spokenWords.length := by
  intro ws
  induction ws with
  | nil =>
    intro k st h1 h2
    simp only [compareLoop]
    exact ⟨h1, h2⟩
  | cons w ws ih =>
    intro k st h1 h2
    simp only [compareLoop]
    obtain ⟨h1', h2'⟩ := compareStep_inv thr spokenWords k w st h1 h2
    exact ih (k + 1) _ h1' h2'

/-! ### Per-record invariants through the loop -/

theorem getD_append_lt (l l2 : List WordResult) (i : ℕ) (h : i < l.length) :
    (l ++ l2).getD i default = l.getD i default := by
  simp [List.getD_eq_getElem?_getD, List.getElem?_append_left h]

theorem getD_append_size (l : List WordResult) (r : WordResult) :
    (l ++ [r]).getD l.length default = r := by
  simp [List.getD_eq_getElem?_getD, List.getElem?_append_right (le_refl l.length)]

theorem status_correct_ne_missed : ("correct" : String) = "missed" → False := by decide

theorem status_correct_ne_incorrect : ("correct" : String) = "incorrect" → False := by decide

theorem status_incorrect_ne_missed : ("incorrect" : String) = "missed" → False := by decide

theorem status_incorrect_ne_correct : ("incorrect" : String) = "correct" → False := by decide

theorem status_missed_ne_correct : ("missed" : String) = "correct" → False := by decide

theorem status_missed_ne_incorrect : ("missed" : String) = "incorrect" → False := by decide

theorem compareStep_recProp (thr : ℚ) (spokenWords : List String) (i : ℕ) (w : String)
    (st : CompareState) :
    ∃ r : WordResult, (compareStep thr spokenWords i w st).wordResults =
      st.wordResults ++ [r] ∧ recProp spokenWords thr i r := by
  have hsome : jsTruthy (bestCandidate w spokenWords i st.used).bestMatch = true →
      ∃ m, (bestCandidate w spokenWords i st.used).bestMatch = some m ∧ m ≠ "" := by
    intro ht
    cases hbm : (bestCandidate w spokenWords i st.used).bestMatch with
    | none => rw [hbm] at ht; simp [jsTruthy] at ht
    | some m =>
      rw [hbm] at ht
      simp [jsTruthy] at ht
      exact ⟨m, rfl, ht⟩
  rcases compareStep_trichotomy thr spokenWords i w st with
    ⟨ht, hs, heq⟩ | ⟨ht, hns, hs, heq⟩ | ⟨hn1, hn2, heq⟩
  · obtain ⟨m, hbm, hmne⟩ := hsome ht
    obtain ⟨j, _, _, hjlen, hmval, hpos, hle, hdisj⟩ :=
      bestCandidate_some w spokenWords i st.used m hbm
    have hspoken : (bestCandidate w spokenWords i st.used).bestMatch.getD "" = m := by
      rw [hbm]; rfl
    rw [heq]
    refine ⟨_, rfl, ?_, ?_, ?_, le_of_lt hpos, hle, ?_⟩
    · constructor
      · intro hcon; exact absurd hcon status_correct_ne_missed
      · rintro ⟨hsp, _⟩
        rw [hspoken] at hsp
        exact absurd hsp hmne
    · intro _; exact hs
    · intro hcon; exact absurd hcon status_correct_ne_incorrect
    · intro _
      rcases hdisj with hadj | ⟨hone, _⟩
      · right
        refine ⟨j, hjlen, ?_, hadj⟩
        rw [hspoken]
        exact hmval
      · left; exact hone
  · obtain ⟨m, hbm, hmne⟩ := hsome ht
    obtain ⟨j, _, _, hjlen, hmval, hpos, hle, hdisj⟩ :=
      bestCandidate_some w spokenWords i st.used m hbm
    have hspoken : (bestCandidate w spokenWords i st.used).bestMatch.getD "" = m := by
      rw [hbm]; rfl
    rw [heq]
    refine ⟨_, rfl, ?_, ?_, ?_, le_of_lt hpos, hle, ?_⟩
    · constructor
      · intro hcon; exact absurd hcon status_incorrect_ne_missed
      · rintro ⟨hsp, _⟩
        rw [hspoken] at hsp
        exact absurd hsp hmne
    · intro hcon; exact absurd hcon status_incorrect_ne_correct
    · intro _; exact ⟨hs, not_le.mp hns⟩
    · intro _
      rcases hdisj with hadj | ⟨hone, _⟩
      · right
        refine ⟨j, hjlen, ?_, hadj⟩
        rw [hspoken]
        exact hmval
      · left; exact hone
  · rw [heq]
    refine ⟨_, rfl, ?_, ?_, ?_, le_refl 0, zero_le_one, ?_⟩
    · exact ⟨fun _ => ⟨rfl, rfl⟩, fun _ => rfl⟩
    · intro hcon; exact absurd hcon status_missed_ne_correct
    · intro hcon; exact absurd hcon status_missed_ne_incorrect
    · intro hcon; exact absurd rfl hcon

theorem compareLoop_recProp (thr : ℚ) (spokenWords : List String) :
    ∀ (ws : List String) (k : ℕ) (st : CompareState),
      st.wordResults.length = k →
      (∀ i, i < st.wordResults.length →
        recProp spokenWords thr i (st.wordResults.getD i default)) →
      ∀ i, i < (compareLoop thr spokenWords k ws st).wordResults.length →
        recProp spokenWords thr i
          ((compareLoop thr spokenWords k ws st).wordResults.getD i default) := by
  intro ws
  induction ws with
  | nil =>
    intro k st _ hrec i hi
    simp only [compareLoop] at hi ⊢
    exact hrec i hi
  | cons w ws ih =>
    intro k st hlen hrec
    simp only [compareLoop]
    obtain ⟨r, hwr, hr⟩ := compareStep_recProp thr spokenWords k w st
    refine ih (k + 1) _ ?_ ?_
    · rw [hwr, List.length_append, hlen]
      rfl
    · intro i hi
      rw [hwr] at hi ⊢
      rw [List.length_append] at hi
      simp only [List.length_singleton] at hi
      by_cases hlt : i < st.wordResults.length
      · rw [getD_append_lt _ _ _ hlt]
        exact hrec i hlt
      · have hieq : i = st.wordResults.length := by omega
        subst hieq
        rw [getD_append_size]
        rw [hlen]
        exact hr

/-! ### The verified claims -/

/-- Claim C1: for every pair of input texts and every threshold, `compare`
returns exactly one word match record per reference token, in reference
order (`wordResults.map original = originalWords`), and the three match
counters sum to the number of reference tokens. -/
theorem compare_total_coverage (originalText spokenText : String) (thr : ℚ) :
    (compare originalText spokenText thr).wordResults.length =
      (compare originalText spokenText thr).originalWords.length ∧
    (compare originalText spokenText thr).wordResults.map WordResult.original =
      (compare originalText spokenText thr).originalWords ∧
    (compare originalText spokenText thr).correctCount +
      (compare originalText spokenText thr).incorrectCount +
      (compare originalText spokenText thr).missedCount =
      (compare originalText spokenText thr).originalWords.length := by
  obtain ⟨h1, h2⟩ := compareLoop_shape thr (tokenize spokenText)
    (tokenize originalText) 0 initState
  simp only [compare]
  refine ⟨?_, ?_, ?_⟩
  · simpa [initState] using congrArg List.length h1
  · simpa [initState] using h1
  · simpa [initState] using h2

/-- Claim C2: comparing a text with itself under the default threshold
classifies every token as correct and yields accuracy 100, whenever the
token sequence is non-empty. -/
theorem compare_identity (T : String) (h : tokenize T ≠ []) :
    (compare T T defaultSimilarityThreshold).correctCount = (tokenize T).length ∧
    (compare T T defaultSimilarityThreshold).incorrectCount = 0 ∧
    (compare T T defaultSimilarityThreshold).missedCount = 0 ∧
    (compare T T defaultSimilarityThreshold).accuracy = 100 := by
  have hn : 0 < (tokenize T).length := List.length_pos.mpr h
  have hne : ((tokenize T).length : ℚ) ≠ 0 := by exact_mod_cast hn.ne'
  have hloop := compareLoop_self (tokenize T) (tokenize_mem_ne_empty T)
    defaultSimilarityThreshold (by norm_num [defaultSimilarityThreshold])
    (tokenize T) 0 (by simp) (Nat.zero_le _) initState (by simp [initState])
  have hc : (compareLoop defaultSimilarityThreshold (tokenize T) 0 (tokenize T)
      initState).correctCount = (tokenize T).length := by
    rw [hloop]; simp [initState]
  have hic : (compareLoop defaultSimilarityThreshold (tokenize T) 0 (tokenize T)
      initState).incorrectCount = 0 := by
    rw [hloop]; simp [initState]
  have hmc : (compareLoop defaultSimilarityThreshold (tokenize T) 0 (tokenize T)
      initState).missedCount = 0 := by
    rw [hloop]; simp [initState]
  simp only [compare]
  refine ⟨hc, hic, hmc, ?_⟩
  rw [if_pos hn, hc, div_self hne, one_mul]
  norm_num [jsRound, Int.floor_eq_iff]

/-- Witness for claim C2 at the concrete text "kedi köpek". -/
theorem compare_identity_witness :
    tokenize "kedi köpek" ≠ [] ∧
    ((compare "kedi köpek" "kedi köpek" defaultSimilarityThreshold).correctCount =
        (tokenize "kedi köpek").length ∧
      (compare "kedi köpek" "kedi köpek" defaultSimilarityThreshold).incorrectCount = 0 ∧
      (compare "kedi köpek" "kedi köpek" defaultSimilarityThreshold).missedCount = 0 ∧
      (compare "kedi köpek" "kedi köpek" defaultSimilarityThreshold).accuracy = 100) :=
  ⟨by decide, compare_identity "kedi köpek" (by decide)⟩

/-- Claim C3 (counterexample): at the concrete spoken text
"herhangi bir şey" the claimed `extraCount = 0` fails: the code sets
`extraCount` to the number of unmatched spoken tokens, here 3. -/
theorem compare_empty_reference_counterexample :
    (compare "" "herhangi bir şey" defaultSimilarityThreshold).extraCount = 3 ∧
    ¬ (compare "" "herhangi bir şey" defaultSimilarityThreshold).extraCount = 0 := by
  decide

/-- Claim C3 (amended): an empty reference text gives no word results,
zero accuracy, zero correct/incorrect/missed counts, and `extraCount`
equal to the number of spoken tokens. -/
theorem compare_empty_reference (spokenText : String) (thr : ℚ) :
    (compare "" spokenText thr).wordResults = [] ∧
    (compare "" spokenText thr).accuracy = 0 ∧
    (compare "" spokenText thr).correctCount = 0 ∧
    (compare "" spokenText thr).incorrectCount = 0 ∧
    (compare "" spokenText thr).missedCount = 0 ∧
    (compare "" spokenText thr).extraCount = (tokenize spokenText).length := by
  have htok : tokenize "" = [] := rfl
  simp only [compare, htok, compareLoop]
  refine ⟨rfl, ?_, rfl, rfl, rfl, ?_⟩
  · rw [if_neg (by simp)]
  · have hcard : ((initState.used.card : ℕ) : ℤ) = 0 := by simp [initState]
    rw [hcard]
    omega

/-- Claim C4: classification of the winning candidate: score at least the
threshold is classified correct and consumes the matched index; score in
`[0.5, threshold)` is classified incorrect and consumes the index; a score
below `0.5`, or the absence of any candidate, is classified missed with an
empty spoken field and no index consumed. -/
theorem compare_threshold_classification (thr : ℚ) (hthr : 1 / 2 ≤ thr)
    (spokenWords : List String) (i : ℕ) (w : String) (st : CompareState) :
    (∀ m, (bestCandidate w spokenWords i st.used).bestMatch = some m → m ≠ "" →
      thr ≤ (bestCandidate w spokenWords i st.used).bestSimilarity →
      (compareStep thr spokenWords i w st).wordResults = st.wordResults ++
        [⟨w, m, "correct", (bestCandidate w spokenWords i st.used).bestSimilarity⟩] ∧
      (compareStep thr spokenWords i w st).used =
        insert (bestCandidate w spokenWords i st.used).bestIndex.toNat st.used ∧
      (compareStep thr spokenWords i w st).correctCount = st.correctCount + 1) ∧
    (∀ m, (bestCandidate w spokenWords i st.used).bestMatch = some m → m ≠ "" →
      1 / 2 ≤ (bestCandidate w spokenWords i st.used).bestSimilarity →
      (bestCandidate w spokenWords i st.used).bestSimilarity < thr →
      (compareStep thr spokenWords i w st).wordResults = st.wordResults ++
        [⟨w, m, "incorrect", (bestCandidate w spokenWords i st.used).bestSimilarity⟩] ∧
      (compareStep thr spokenWords i w st).used =
        insert (bestCandidate w spokenWords i st.used).bestIndex.toNat st.used ∧
      (compareStep thr spokenWords i w st).incorrectCount = st.incorrectCount + 1) ∧
    (((bestCandidate w spokenWords i st.used).bestMatch = none ∨
        (bestCandidate w spokenWords i st.used).bestSimilarity < 1 / 2) →
      (compareStep thr spokenWords i w st).wordResults =
        st.wordResults ++ [⟨w, "", "missed", 0⟩] ∧
      (compareStep thr spokenWords i w st).used = st.used ∧
      (compareStep thr spokenWords i w st).missedCount = st.missedCount + 1) := by
  refine ⟨?_, ?_, ?_⟩
  · intro m hbm hmne hge
    have ht : jsTruthy (bestCandidate w spokenWords i st.used).bestMatch = true := by
      rw [hbm]; simp [jsTruthy, hmne]
    rcases compareStep_trichotomy thr spokenWords i w st with
      ⟨_, _, heq⟩ | ⟨_, hns, _, _⟩ | ⟨hn1, _, _⟩
    · rw [heq]
      refine ⟨?_, rfl, rfl⟩
      rw [hbm]
      simp only [Option.getD_some]
    · exact absurd hge hns
    · exact absurd ⟨ht, hge⟩ hn1
  · intro m hbm hmne hge hlt
    have ht : jsTruthy (bestCandidate w spokenWords i st.used).bestMatch = true := by
      rw [hbm]; simp [jsTruthy, hmne]
    rcases compareStep_trichotomy thr spokenWords i w st with
      ⟨_, hs, _⟩ | ⟨_, _, _, heq⟩ | ⟨_, hn2, _⟩
    · exact absurd hs (not_le.mpr hlt)
    · rw [heq]
      refine ⟨?_, rfl, rfl⟩
      rw [hbm]
      simp only [Option.getD_some]
    · exact absurd ⟨ht, hge⟩ hn2
  · intro hcase
    rcases compareStep_trichotomy thr spokenWords i w st with
      ⟨ht, hs, _⟩ | ⟨ht, _, hs, _⟩ | ⟨_, _, heq⟩
    · rcases hcase with hnone | hsmall
      · rw [hnone] at ht; simp [jsTruthy] at ht
      · exact absurd hs (not_le.mpr (lt_of_lt_of_le hsmall hthr))
    · rcases hcase with hnone | hsmall
      · rw [hnone] at ht; simp [jsTruthy] at ht
      · exact absurd hs (not_le.mpr hsmall)
    · rw [heq]
      exact ⟨rfl, rfl, rfl⟩

/-- Witness for claim C4: the correct branch fires on a concrete exact
match. -/
theorem compare_threshold_classification_witness :
    (compareStep (7 / 10) ["kedi"] 0 "kedi" initState).wordResults =
      initState.wordResults ++
        [⟨"kedi", "kedi", "correct",
          (bestCandidate "kedi" ["kedi"] 0 initState.used).bestSimilarity⟩] ∧
    (compareStep (7 / 10) ["kedi"] 0 "kedi" initState).used =
      insert (bestCandidate "kedi" ["kedi"] 0 initState.used).bestIndex.toNat
        initState.used ∧
    (compareStep (7 / 10) ["kedi"] 0 "kedi" initState).correctCount =
      initState.correctCount + 1 := by
  have h0 : initState.used = Finset.range 0 := by simp [initState]
  have hbc : bestCandidate "kedi" ["kedi"] 0 initState.used =
      ⟨some "kedi", 1, (0 : ℤ)⟩ := by
    rw [h0]
    exact bestCandidate_self ["kedi"] 0 (by simp) "kedi" rfl
  exact (compare_threshold_classification (7 / 10) (by norm_num) ["kedi"] 0 "kedi"
    initState).1 "kedi" (by rw [hbc]) (by decide) (by rw [hbc]; norm_num)

/-- Claim C5: the windowed search considers exactly the unconsumed indices
in `[searchStart, searchEnd)`, scores them with the positional bonus, and
keeps a candidate of maximal adjusted score. -/
theorem compare_window_search (w : String) (spokenWords : List String) (i : ℕ)
    (used : Finset ℕ) :
    (∀ j, searchStart i ≤ j → j < searchEnd spokenWords i → j ∉ used →
      adjustedSim w spokenWords i j ≤ (windowScan w spokenWords i used).bestSimilarity) ∧
    (∀ m, (windowScan w spokenWords i used).bestMatch = some m →
      ∃ j, searchStart i ≤ j ∧ j < searchEnd spokenWords i ∧ j ∉ used ∧
        (windowScan w spokenWords i used).bestIndex = (j : ℤ) ∧
        m = spokenWords.getD j "" ∧
        (windowScan w spokenWords i used).bestSimilarity =
          adjustedSim w spokenWords i j) ∧
    ((windowScan w spokenWords i used).bestMatch = none →
      (windowScan w spokenWords i used).bestSimilarity = 0) := by
  refine ⟨fun j hjs hje hju => windowScan_upper w spokenWords i used j hjs hje hju,
    ?_, ?_⟩
  · intro m hm
    obtain ⟨j, h1, h2, h3, h4, h5, h6, _⟩ := windowScan_some w spokenWords i used m hm
    exact ⟨j, h1, h2, h3, h4, h5, h6⟩
  · intro hm
    rw [windowScan_none w spokenWords i used hm]

/-- Witness for claim C5: the upper-bound clause at a concrete window
candidate. -/
theorem compare_window_search_witness :
    adjustedSim "kedi" ["kedi"] 0 0 ≤ (windowScan "kedi" ["kedi"] 0 ∅).bestSimilarity :=
  (compare_window_search "kedi" ["kedi"] 0 ∅).1 0 (by decide) (by decide) (by decide)

/-- Claim C6: whenever the best windowed score is below `0.9` and some
unconsumed spoken index outside the window holds a token exactly equal to
the reference token, the candidate is overridden with a perfect score of 1
and is classified correct for any threshold at most 1. -/
theorem fallback_exact_match (thr : ℚ) (hthr : thr ≤ 1) (spokenWords : List String)
    (i : ℕ) (w : String) (hw : w ≠ "") (st : CompareState)
    (hwin : (windowScan w spokenWords i st.used).bestSimilarity < 9 / 10)
    (j : ℕ) (hju : j ∉ st.used)
    (hjw : ¬ (searchStart i ≤ j ∧ j < searchEnd spokenWords i))
    (hjlen : j < spokenWords.length) (hjeq : spokenWords.getD j "" = w) :
    (bestCandidate w spokenWords i st.used).bestSimilarity = 1 ∧
    (bestCandidate w spokenWords i st.used).bestMatch = some w ∧
    (compareStep thr spokenWords i w st).wordResults =
      st.wordResults ++ [⟨w, w, "correct", 1⟩] ∧
    (compareStep thr spokenWords i w st).correctCount = st.correctCount + 1 := by
  obtain ⟨j0, hfs⟩ := fallbackScan_isSome w spokenWords i st.used j hju hjw hjlen hjeq
  obtain ⟨_, _, _, hj0eq⟩ := fallbackScan_some w spokenWords i st.used j0 hfs
  have hbc : bestCandidate w spokenWords i st.used = ⟨some w, 1, (j0 : ℤ)⟩ := by
    simp only [bestCandidate]
    rw [if_pos hwin, hfs]
    show (⟨some (spokenWords.getD j0 ""), 1, (j0 : ℤ)⟩ : BestCand) =
      ⟨some w, 1, (j0 : ℤ)⟩
    rw [hj0eq]
  have htruthy : jsTruthy (some w) = true := by simp [jsTruthy, hw]
  have hstep : compareStep thr spokenWords i w st = { st with
      used := insert ((j0 : ℤ)).toNat st.used,
      wordResults := st.wordResults ++ [⟨w, w, "correct", 1⟩],
      correctCount := st.correctCount + 1 } := by
    simp only [compareStep, hbc]
    rw [if_pos ⟨htruthy, hthr⟩]
    simp only [Option.getD_some]
  exact ⟨by rw [hbc], by rw [hbc], by rw [hstep], by rw [hstep]⟩

/-- Witness for claim C6: with reference position 20 the window over a
one-token spoken sequence is empty, and the exact match at spoken index 0,
outside the window, overrides the windowed candidate. -/
theorem fallback_exact_match_witness :
    (bestCandidate "zebra" ["zebra"] 20 initState.used).bestSimilarity = 1 ∧
    (bestCandidate "zebra" ["zebra"] 20 initState.used).bestMatch = some "zebra" ∧
    (compareStep (7 / 10) ["zebra"] 20 "zebra" initState).wordResults =
      initState.wordResults ++ [⟨"zebra", "zebra", "correct", 1⟩] ∧
    (compareStep (7 / 10) ["zebra"] 20 "zebra" initState).correctCount =
      initState.correctCount + 1 := by
  have hws : windowScan "zebra" ["zebra"] 20 initState.used = ⟨none, 0, -1⟩ := rfl
  exact fallback_exact_match (7 / 10) (by norm_num) ["zebra"] 20 "zebra"
    (by decide) initState (by rw [hws]; norm_num) 0 (by decide) (by decide)
    (by decide) rfl

/-- Claim C7: `similarity` is the normalized inverse Levenshtein distance:
it equals `1 - distance / max(len a, len b)` whenever some string is
non-empty, is 1 on two empty strings, always lies in `[0, 1]`, and the
distance satisfies the empty-string laws of the classic unit-cost edit
distance. -/
theorem similarity_levenshtein (a b : String) :
    (max a.length b.length ≠ 0 →
      similarity a b = 1 - (levenshteinDistance a b : ℚ) /
        ((max a.length b.length : ℕ) : ℚ)) ∧
    (a = "" → b = "" → similarity a b = 1) ∧
    0 ≤ similarity a b ∧ similarity a b ≤ 1 ∧
    levenshteinDistance a "" = a.length ∧
    levenshteinDistance "" b = b.length ∧
    levenshteinDistance a b ≤ max a.length b.length := by
  refine ⟨?_, ?_, similarity_nonneg a b, similarity_le_one a b, ?_, ?_,
    levenshteinDistance_le_max a b⟩
  · intro h
    simp [similarity, h]
  · intro ha hb
    subst ha
    subst hb
    rfl
  · unfold levenshteinDistance
    rw [(rfl : ("" : String).data = []), levChars_nil_right]
    rfl
  · unfold levenshteinDistance
    rw [(rfl : ("" : String).data = []), levChars_nil_left]
    rfl

/-- Witness for claim C7 at two concrete words. -/
theorem similarity_levenshtein_witness :
    similarity "ab" "cd" = 1 - (levenshteinDistance "ab" "cd" : ℚ) /
      ((max ("ab" : String).length ("cd" : String).length : ℕ) : ℚ) ∧
    0 ≤ similarity "ab" "cd" ∧ similarity "ab" "cd" ≤ 1 :=
  ⟨(similarity_levenshtein "ab" "cd").1 (by decide),
    (similarity_levenshtein "ab" "cd").2.2.1,
    (similarity_levenshtein "ab" "cd").2.2.2.1⟩

/-- Claim C8: the accuracy field is the rounded percentage of correct
matches among the reference tokens, and 0 on an empty reference. -/
theorem compare_accuracy_formula (originalText spokenText : String) (thr : ℚ) :
    ((compare originalText spokenText thr).originalWords.length ≠ 0 →
      (compare originalText spokenText thr).accuracy =
        jsRound (100 * ((compare originalText spokenText thr).correctCount : ℚ) /
          ((compare originalText spokenText thr).originalWords.length : ℚ))) ∧
    ((compare originalText spokenText thr).originalWords.length = 0 →
      (compare originalText spokenText thr).accuracy = 0) := by
  constructor
  · intro h
    simp only [compare] at h ⊢
    rw [if_pos (Nat.pos_of_ne_zero h)]
    congr 1
    ring
  · intro h
    simp only [compare] at h ⊢
    rw [if_neg (by omega)]

/-- Witness for claim C8 at a concrete comparison with two reference
tokens. -/
theorem compare_accuracy_formula_witness :
    (compare "a b" "a" (7 / 10)).accuracy =
      jsRound (100 * ((compare "a b" "a" (7 / 10)).correctCount : ℚ) /
        ((compare "a b" "a" (7 / 10)).originalWords.length : ℚ)) :=
  (compare_accuracy_formula "a b" "a" (7 / 10)).1 (by decide)

/-- Claim C9: the consumed spoken indices are pairwise distinct, so
`correctCount + incorrectCount` never exceeds the number of spoken tokens
and `extraCount` is exactly the difference (the `max 0` clamp never changes
the value). -/
theorem compare_extra_count (originalText spokenText : String) (thr : ℚ) :
    (compare originalText spokenText thr).correctCount +
      (compare originalText spokenText thr).incorrectCount ≤
      (compare originalText spokenText thr).spokenWords.length ∧
    ((compare originalText spokenText thr).extraCount : ℤ) =
      ((compare originalText spokenText thr).spokenWords.length : ℤ) -
        (((compare originalText spokenText thr).correctCount +
          (compare originalText spokenText thr).incorrectCount : ℕ) : ℤ) := by
  obtain ⟨h1, h2⟩ := compareLoop_inv thr (tokenize spokenText)
    (tokenize originalText) 0 initState (by simp [initState]) (by simp [initState])
  have hcard : (compareLoop thr (tokenize spokenText) 0 (tokenize originalText)
      initState).used.card ≤ (tokenize spokenText).length := by
    simpa using Finset.card_le_card h2
  simp only [compare]
  constructor
  · exact le_of_eq_of_le h1.symm hcard
  · rw [← h1]
    omega

/-- Claim C10: every word match record satisfies the status invariants:
missed exactly when the spoken field is empty and the similarity is 0,
correct only at or above the threshold, incorrect only in `[0.5, threshold)`,
similarity always in `[0, 1]` and, for matched records, equal to the
positional-bonus-adjusted score of the matched index or to the perfect
fallback score 1. -/
theorem compare_word_record_invariants (originalText spokenText : String)
    (thr : ℚ) (i : ℕ)
    (hi : i < (compare originalText spokenText thr).wordResults.length) :
    (((compare originalText spokenText thr).wordResults.getD i default).status =
        "missed" ↔
      (((compare originalText spokenText thr).wordResults.getD i default).spoken =
          "" ∧
        ((compare originalText spokenText thr).wordResults.getD i
          default).similarity = 0)) ∧
    (((compare originalText spokenText thr).wordResults.getD i default).status =
        "correct" →
      thr ≤ ((compare originalText spokenText thr).wordResults.getD i
        default).similarity) ∧
    (((compare originalText spokenText thr).wordResults.getD i default).status =
        "incorrect" →
      1 / 2 ≤ ((compare originalText spokenText thr).wordResults.getD i
          default).similarity ∧
        ((compare originalText spokenText thr).wordResults.getD i
          default).similarity < thr) ∧
    0 ≤ ((compare originalText spokenText thr).wordResults.getD i
      default).similarity ∧
    ((compare originalText spokenText thr).wordResults.getD i
      default).similarity ≤ 1 ∧
    (((compare originalText spokenText thr).wordResults.getD i default).status ≠
        "missed" →
      ((compare originalText spokenText thr).wordResults.getD i
          default).similarity = 1 ∨
        ∃ j, j < (compare originalText spokenText thr).spokenWords.length ∧
          ((compare originalText spokenText thr).wordResults.getD i
            default).spoken =
            (compare originalText spokenText thr).spokenWords.getD j "" ∧
          ((compare originalText spokenText thr).wordResults.getD i
            default).similarity =
            adjustedSim
              ((compare originalText spokenText thr).wordResults.getD i
                default).original
              (compare originalText spokenText thr).spokenWords i j) := by
  have h2 : ∀ i', i' < initState.wordResults.length →
      recProp (tokenize spokenText) thr i' (initState.wordResults.getD i' default) := by
    intro i' hi'
    simp [initState] at hi'
  have hi' : i < (compareLoop thr (tokenize spokenText) 0 (tokenize originalText)
      initState).wordResults.length := by
    simpa [compare] using hi
  have h := compareLoop_recProp thr (tokenize spokenText) (tokenize originalText)
    0 initState rfl h2 i hi'
  simp only [compare]
  exact h

/-- Witness for claim C10 at a concrete comparison: the first record exists
and its similarity is non-negative. -/
theorem compare_word_record_invariants_witness :
    0 < (compare "kedi" "kedi" (7 / 10)).wordResults.length ∧
    0 ≤ ((compare "kedi" "kedi" (7 / 10)).wordResults.getD 0 default).similarity := by
  have h1 := (compareLoop_shape (7 / 10) (tokenize "kedi") (tokenize "kedi") 0
    initState).1
  have hlen : (compare "kedi" "kedi" (7 / 10)).wordResults.length = 1 := by
    simp only [compare]
    have h2 := congrArg List.length h1
    simp only [List.length_map, List.length_append] at h2
    rw [h2]
    decide
  exact ⟨by rw [hlen]; norm_num,
    (compare_word_record_invariants "kedi" "kedi" (7 / 10) 0
      (by rw [hlen]; norm_num)).2.2.2.1⟩

end TextComparator
